import Mathlib

/-!
Verification of the `trafix-codec` FIX message codec.

Shallow embedding of the `trafix-codec` Rust crate: the integer parser
(`decoder/num.rs`), the checksum accumulator (`digest.rs`), the lexer and
decoder (`decoder/decode.rs`), the field and message model (`message/`),
and the encoder (`encoder/mod.rs`).  Bytes are modelled as `Nat` values
below 256, byte buffers as `List Nat`.  Machine integers (`u8`, `i8`,
`u16`, `u64`, `usize`) are modelled as `Int`/`Nat` with explicit range
checks mirroring the checked arithmetic of the source.
-/

set_option maxRecDepth 100000

namespace Trafix

/-- `s2b` converts an ASCII string literal to the byte list it denotes. -/
def s2b (s : String) : List Nat :=
  s.data.map Char.toNat

/-- ASCII SOH delimiter (0x01), `constants::SOH`. -/
def SOH : Nat := 1

/-- ASCII equals character, `constants::EQUALS`. -/
def EQUALS : Nat := 61

/-- `u8::is_ascii_digit`: the byte is one of the ASCII digits 0-9. -/
def isAsciiDigit (b : Nat) : Bool :=
  48 ≤ b && b ≤ 57

/-! Section: Integer parser (`decoder/num.rs`) -/

/-- `ParseIntError` of `decoder/num.rs`.  The `empty` variant mirrors
`ParseIntError::Empty` (documented as "Byte slice is empty, which is an
invalid integer"). -/
inductive ParseIntError where
  | invalidDigit
  | overflow
  | empty
deriving DecidableEq

/-- The digit-folding loop of `parse_fix_int` (the `for byte in bytes`
loop): `checked_mul(10)` first (an out-of-range product is an overflow),
then the ASCII-digit test, then checked add (positive) or checked sub
(negative).  `lo`/`hi` are the bounds of the target fixed-width type; the
checked operations fail exactly when the mathematical result leaves
`[lo, hi]`. -/
def parseLoop (neg : Bool) (lo hi : Int) : List Nat → Int → Except ParseIntError Int
  | [], value => .ok value
  | b :: rest, value =>
    let v10 := value * 10
    if v10 < lo ∨ hi < v10 then .error .overflow
    else if ¬ isAsciiDigit b then .error .invalidDigit
    else
      let toAdd : Int := (b : Int) - 48
      let next := if neg then v10 - toAdd else v10 + toAdd
      if next < lo ∨ hi < next then .error .overflow
      else parseLoop neg lo hi rest next

/-- `parse_fix_int` of `decoder/num.rs`, parameterised by signedness and
the bounds of the target type (the Rust macro `impl_for!` instantiates
one copy per type).  A leading `-` is accepted only for signed targets
(`is_signed`), otherwise it is an overflow error; note that
`bytes.get(1..)` on a slice that starts with `-` is always `Some`, so the
`Empty` error of the source is unreachable. -/
def parseFixInt (signed : Bool) (lo hi : Int) (bytes : List Nat) : Except ParseIntError Int :=
  match bytes with
  | [] => parseLoop false lo hi [] 0
  | b :: rest =>
    if b = 45 then
      if signed then parseLoop true lo hi rest 0
      else .error .overflow
    else parseLoop false lo hi (b :: rest) 0

/-- `u8::parse_fix_int` (range 0..=255), result as `Nat`. -/
def parseU8 (bytes : List Nat) : Except ParseIntError Nat :=
  (parseFixInt false 0 255 bytes).map Int.toNat

/-- `i8::parse_fix_int` (range -128..=127). -/
def parseI8 (bytes : List Nat) : Except ParseIntError Int :=
  parseFixInt true (-128) 127 bytes

/-- `u16::parse_fix_int` (range 0..=65535), result as `Nat`. -/
def parseU16 (bytes : List Nat) : Except ParseIntError Nat :=
  (parseFixInt false 0 65535 bytes).map Int.toNat

/-- `u64::parse_fix_int` (range 0..=2^64-1), result as `Nat`. -/
def parseU64 (bytes : List Nat) : Except ParseIntError Nat :=
  (parseFixInt false 0 18446744073709551615 bytes).map Int.toNat

/-- `usize::parse_fix_int` (64-bit target, range 0..=2^64-1), result as
`Nat`. -/
def parseUsize (bytes : List Nat) : Except ParseIntError Nat :=
  (parseFixInt false 0 18446744073709551615 bytes).map Int.toNat

/-! Section: Checksum accumulator (`digest.rs`) -/

/-- The `Digest` accumulator: a running modulo-256 sum. -/
structure Digest where
  checksum : Nat
deriving DecidableEq

/-- `Digest::push`: fold every byte into the running sum with wrapping
(`u8::wrapping_add`, i.e. modulo-256) addition. -/
def Digest.push (d : Digest) (input : List Nat) : Digest :=
  ⟨input.foldl (fun acc b => (acc + b) % 256) d.checksum⟩

/-- Checksum of a whole buffer: a fresh (`Default`) digest after pushing
all bytes, as both the encoder and the decoder use it. -/
def checksumOf (bytes : List Nat) : Nat :=
  (Digest.push ⟨0⟩ bytes).checksum

/-! Section: Field values (`message/field/value/`) -/

/-- `BeginString` (`begin_string.rs`): the protocol version value of
tag 8.  Only `FIX.4.4` is supported. -/
inductive BeginString where
  | fix44
deriving DecidableEq

/-- `From<BeginString> for Vec<u8>`. -/
def BeginString.toBytes : BeginString → List Nat
  | .fix44 => s2b (r"FIX.4.4")

/-- `BeginString::from_fix_bytes`: only the exact `FIX.4.4` byte string
is accepted. -/
def BeginString.fromFixBytes (bytes : List Nat) : Except Unit BeginString :=
  if bytes = BeginString.toBytes .fix44 then .ok .fix44 else .error ()

/-- `MsgType` (`msg_type.rs`): the seven supported message-type codes of
tag 35. -/
inductive MsgType where
  | logon
  | heartbeat
  | testRequest
  | resendRequest
  | reject
  | sequenceReset
  | logout
deriving DecidableEq

/-- `From<MsgType> for Vec<u8>`. -/
def MsgType.toBytes : MsgType → List Nat
  | .logon => s2b (r"A")
  | .heartbeat => s2b (r"0")
  | .testRequest => s2b (r"1")
  | .resendRequest => s2b (r"2")
  | .reject => s2b (r"3")
  | .sequenceReset => s2b (r"4")
  | .logout => s2b (r"5")

/-- `MsgType::from_fix_bytes`: match on the seven single-character
codes. -/
def MsgType.fromFixBytes (bytes : List Nat) : Except Unit MsgType :=
  if bytes = s2b (r"A") then .ok .logon
  else if bytes = s2b (r"0") then .ok .heartbeat
  else if bytes = s2b (r"1") then .ok .testRequest
  else if bytes = s2b (r"2") then .ok .resendRequest
  else if bytes = s2b (r"3") then .ok .reject
  else if bytes = s2b (r"4") then .ok .sequenceReset
  else if bytes = s2b (r"5") then .ok .logout
  else .error ()

/-! Section: Field model (`message/field/mod.rs`, macro `fields_macro!`) -/

/-- The `Field` enum: the four strongly typed variants generated by
`fields_macro!` (`MsgSeqNum = u64`, the three raw-byte identifiers) plus
the catch-all `Custom { tag: u16, value: Vec<u8> }`. -/
inductive Field where
  | msgSeqNum (n : Nat)
  | senderCompID (v : List Nat)
  | sendingTime (v : List Nat)
  | targetCompID (v : List Nat)
  | custom (tag : Nat) (value : List Nat)
deriving DecidableEq

/-- `Field::tag`. -/
def Field.tag : Field → Nat
  | .msgSeqNum _ => 34
  | .senderCompID _ => 49
  | .sendingTime _ => 52
  | .targetCompID _ => 56
  | .custom t _ => t

/-- Decimal formatting core: produce the ASCII digits of `n`
least-significant first into `acc`; the fuel argument only bounds the
recursion and never runs out for `fuel ≥ n + 1`. -/
def decimalBytesCore : Nat → Nat → List Nat → List Nat
  | 0, _, acc => acc
  | fuel + 1, n, acc =>
    let acc' := (48 + n % 10) :: acc
    if n / 10 = 0 then acc' else decimalBytesCore fuel (n / 10) acc'

/-- Rust `format!` for an unsigned integer: decimal ASCII digits, no sign,
no leading zeros (`0` itself prints as `"0"`). -/
def decimalBytes (n : Nat) : List Nat :=
  decimalBytesCore (n + 1) n []

/-- `Field::value`: the serialized value bytes of a field (`MsgSeqNum`
prints in decimal, the raw-byte variants return their bytes). -/
def Field.value : Field → List Nat
  | .msgSeqNum n => decimalBytes n
  | .senderCompID v => v
  | .sendingTime v => v
  | .targetCompID v => v
  | .custom _ v => v

/-- `Field::encode`: the `"tag=value"` byte sequence, no trailing SOH. -/
def Field.encode (f : Field) : List Nat :=
  decimalBytes f.tag ++ [EQUALS] ++ f.value

/-- `Field::try_new`: dispatch on the tag; the four well-known tags run
their typed conversion (`u64::parse_fix_int` for 34, the infallible raw
`Vec<u8>` conversion for 49/52/56), every other tag yields `Custom`
unconditionally. -/
def Field.tryNew (t : Nat) (bytes : List Nat) : Except Unit Field :=
  if t = 34 then
    match parseU64 bytes with
    | .ok n => .ok (.msgSeqNum n)
    | .error _ => .error ()
  else if t = 49 then .ok (.senderCompID bytes)
  else if t = 52 then .ok (.sendingTime bytes)
  else if t = 56 then .ok (.targetCompID bytes)
  else .ok (.custom t bytes)

/-! Section: Message model (`message/mod.rs`) -/

/-- `Header`: mandatory version and type plus the ordered optional header
fields. -/
structure Header where
  beginString : BeginString
  msgType : MsgType
  fields : List Field
deriving DecidableEq

/-- `Body`: the ordered body fields. -/
structure Body where
  fields : List Field
deriving DecidableEq

/-- `Message`: one header and one body. -/
structure Message where
  header : Header
  body : Body
deriving DecidableEq

/-- `Message::builder`: a fresh builder with empty optional header fields
and empty body.  The type-state flag `IS_INIT` has no runtime content, so
the builder is modelled by the message under construction. -/
def Message.builder (bs : BeginString) (mt : MsgType) : Message :=
  ⟨⟨bs, mt, []⟩, ⟨[]⟩⟩

/-- `MessageBuilder::with_header`: push a field onto the header's
optional field list. -/
def Message.withHeader (m : Message) (f : Field) : Message :=
  ⟨⟨m.header.beginString, m.header.msgType, m.header.fields ++ [f]⟩, m.body⟩

/-- `MessageBuilder::with_field`: push a field onto the body. -/
def Message.withField (m : Message) (f : Field) : Message :=
  ⟨m.header, ⟨m.body.fields ++ [f]⟩⟩

/-! Section: Encoder (`encoder/mod.rs`) -/

/-- `encode_regular_fields`: `35=<msg-type>` then the optional header
fields then the body fields, each followed by one SOH. -/
def encodeRegularFields (header : Header) (body : Body) : List Nat :=
  (Field.encode (.custom 35 header.msgType.toBytes) ++ [SOH])
    ++ (header.fields.map (fun f => f.encode ++ [SOH])).flatten
    ++ (body.fields.map (fun f => f.encode ++ [SOH])).flatten

/-- `encode_framing_headers`: prepend `8=<version>` and
`9=<regular-section-length>`, each followed by one SOH. -/
def encodeFramingHeaders (header : Header) (regularFields : List Nat) : List Nat :=
  (Field.encode (.custom 8 header.beginString.toBytes) ++ [SOH])
    ++ (Field.encode (.custom 9 (decimalBytes regularFields.length)) ++ [SOH])
    ++ regularFields

/-- `finalize_message`: append `10=<checksum>` (the modulo-256 sum of
everything produced so far, decimal, no padding) followed by one SOH. -/
def finalizeMessage (message : List Nat) : List Nat :=
  message ++ (Field.encode (.custom 10 (decimalBytes (checksumOf message))) ++ [SOH])

/-- `encoder::encode`: assemble the full wire image of a message. -/
def encode (header : Header) (body : Body) : List Nat :=
  finalizeMessage (encodeFramingHeaders header (encodeRegularFields header body))

/-- `Message::encode`. -/
def Message.encode (m : Message) : List Nat :=
  Trafix.encode m.header m.body

/-! Section: Lexer and decoder (`decoder/decode.rs`) -/

/-- `LexError` of `decoder/decode.rs`. -/
inductive LexError where
  | unexpected (expected butGot : Nat)
  | eoi
  | expectedEOI (b : Nat)
  | malformedTag
deriving DecidableEq

/-- `Error` of `decoder/decode.rs`.  `BadValue(String)` is modelled
without its message string, `MissingMandatoryField(&str)` without its
field name (the only use is "body length"). -/
inductive DecodeError where
  | missingMandatoryField
  | unexpectedChecksum
  | checksumMismatch (calculated expected : Nat)
  | badTag (t : Nat)
  | bodyLength (received expected : Nat)
  | lexer (e : LexError)
  | badValue
deriving DecidableEq

/-- The `Lexer`: the input buffer and the cursor position. -/
structure Lexer where
  input : List Nat
  cursor : Nat
deriving DecidableEq

/-- `Lexer::skip`: consume the expected byte or fail (`Unexpected` on a
different byte, `EOI` past the end); the cursor moves only on success. -/
def Lexer.skip (l : Lexer) (expected : Nat) : Except LexError Lexer :=
  match l.input[l.cursor]? with
  | some b =>
    if b ≠ expected then .error (.unexpected expected b)
    else .ok ⟨l.input, l.cursor + 1⟩
  | none => .error .eoi

/-- `Lexer::skip_or_eoi`: at end of input succeed without moving,
otherwise behave like `skip`. -/
def Lexer.skipOrEoi (l : Lexer) (expected : Nat) : Except LexError Lexer :=
  match l.input[l.cursor]? with
  | none => .ok l
  | some _ => l.skip expected

/-- `Lexer::tag` (as a function of the `&mut self` state: the result is
paired with the lexer left behind, also on failure, because the decoder
reads the cursor after a failed probe).  Consecutive ASCII digits are
consumed, the `=` byte is skipped, and the digit span is parsed with
`u16::parse_fix_int`; a parse failure is reported as `MalformedTag`. -/
def Lexer.tag (l : Lexer) : Except LexError Nat × Lexer :=
  let tagBytes := (l.input.drop l.cursor).takeWhile isAsciiDigit
  let scanned : Lexer := ⟨l.input, l.cursor + tagBytes.length⟩
  match scanned.skip EQUALS with
  | .error e => (.error e, scanned)
  | .ok afterEq =>
    match parseU16 tagBytes with
    | .error _ => (.error .malformedTag, afterEq)
    | .ok t => (.ok t, afterEq)

/-- `Lexer::value`: consume bytes up to the next SOH (or end of input),
then consume the SOH if any input remains (`skip_or_eoi`). -/
def Lexer.value (l : Lexer) : Except LexError (List Nat) × Lexer :=
  let v := (l.input.drop l.cursor).takeWhile (fun b => b ≠ SOH)
  let scanned : Lexer := ⟨l.input, l.cursor + v.length⟩
  match scanned.skipOrEoi SOH with
  | .error e => (.error e, scanned)
  | .ok afterSoh => (.ok v, afterSoh)

/-- The `while let Ok(tag) = lexer.tag()` loop of `decode`
(states `ConsumeFields`/`ExpectChecksum` of the design): a failed tag
lex exits the loop normally; tag 10 triggers the trailer checks (probe
for a following tag, measured body length from the cursor arithmetic
`cursor - SOH_LEN - value.len() - EQ_LEN - CKSUM_TAG_LEN`, checksum over
the bytes before that position), any other tag is appended to the body
through `Field::try_new`.  The fuel argument only bounds the recursion;
each iteration advances the cursor, so `input.length + 1` fuel is never
exhausted (`consumeFields_fuel_sufficient` below). -/
def consumeFields : Nat → Lexer → Nat → Nat → List Field → Except DecodeError (List Field)
  | 0, _, _, _, acc => .ok acc
  | fuel + 1, l, bodyStartCursor, bodyLength, acc =>
    match l.tag with
    | (.error _, _) => .ok acc
    | (.ok t, l1) =>
      match l1.value with
      | (.error e, _) => .error (.lexer e)
      | (.ok v, l2) =>
        if t = 10 then
          match l2.tag with
          | (.ok _, _) => .error .unexpectedChecksum
          | (.error _, l3) =>
            let cursorBeforeChecksum := l3.cursor - 1 - v.length - 1 - 2
            let receivedBodyLength := cursorBeforeChecksum - bodyStartCursor
            if receivedBodyLength ≠ bodyLength then
              .error (.bodyLength receivedBodyLength bodyLength)
            else
              let calculated := checksumOf (l3.input.take cursorBeforeChecksum)
              match parseU8 v with
              | .error _ => .error .badValue
              | .ok expected =>
                if calculated ≠ expected then
                  .error (.checksumMismatch calculated expected)
                else consumeFields fuel l3 bodyStartCursor bodyLength acc
        else
          match Field.tryNew t v with
          | .error _ => .error .badValue
          | .ok f => consumeFields fuel l2 bodyStartCursor bodyLength (acc ++ [f])

/-- `decoder::decode`: the fixed header sequence `8`, `9`, `35`, the
mandatory first body field, then the `consumeFields` loop, finally
`builder.build()`. -/
def decode (bytes : List Nat) : Except DecodeError Message :=
  match Lexer.tag ⟨bytes, 0⟩ with
  | (.error e, _) => .error (.lexer e)
  | (.ok t1, l1) =>
  match l1.value with
  | (.error e, _) => .error (.lexer e)
  | (.ok v1, l2) =>
  if t1 ≠ 8 then .error (.badTag t1)
  else
  match BeginString.fromFixBytes v1 with
  | .error _ => .error .badValue
  | .ok bs =>
  match l2.tag with
  | (.error e, _) => .error (.lexer e)
  | (.ok t2, l3) =>
  match l3.value with
  | (.error e, _) => .error (.lexer e)
  | (.ok v2, l4) =>
  if t2 ≠ 9 then .error .missingMandatoryField
  else
  match parseUsize v2 with
  | .error _ => .error .badValue
  | .ok bodyLength =>
  let bodyStartCursor := l4.cursor
  match l4.tag with
  | (.error e, _) => .error (.lexer e)
  | (.ok t3, l5) =>
  if t3 ≠ 35 then .error (.badTag t3)
  else
  match l5.value with
  | (.error e, _) => .error (.lexer e)
  | (.ok v3, l6) =>
  match MsgType.fromFixBytes v3 with
  | .error _ => .error .badValue
  | .ok mt =>
  match l6.tag, ((l6.tag).2).value with
  | (.error e, _), _ => .error (.lexer e)
  | (.ok _, _), (.error e, _) => .error (.lexer e)
  | (.ok tf, _), (.ok vf, l8) =>
  match Field.tryNew tf vf with
  | .error _ => .error .badValue
  | .ok f0 =>
  match consumeFields (bytes.length + 1) l8 bodyStartCursor bodyLength [f0] with
  | .error e => .error e
  | .ok fields => .ok ⟨⟨bs, mt, []⟩, ⟨fields⟩⟩

/-- A field that survives the decoder's re-construction: its tag is not
the checksum tag, fits in `u16`, its serialized value contains no SOH
byte, and `Field::try_new` on its wire image returns the field itself. -/
def goodField (f : Field) : Prop :=
  f.tag ≠ 10 ∧ f.tag ≤ 65535 ∧ (∀ b ∈ f.value, b ≠ SOH) ∧ Field.tryNew f.tag f.value = .ok f

instance exceptDecEq {ε α : Type} [DecidableEq ε] [DecidableEq α] :
    DecidableEq (Except ε α) := fun a b => by
  cases a <;> cases b
  case error.error e e' => exact decidable_of_iff (e = e') (by simp)
  case error.ok => exact isFalse (by simp)
  case ok.error => exact isFalse (by simp)
  case ok.ok x y => exact decidable_of_iff (x = y) (by simp)

instance (f : Field) : Decidable (goodField f) := by
  unfold goodField
  infer_instance

/-- The slice `parse_fix_int` actually folds over: the input with one
leading `-` removed when the target is signed. -/
def signStripped (signed : Bool) (bytes : List Nat) : List Nat :=
  match bytes with
  | [] => []
  | b :: rest => if b = 45 ∧ signed = true then rest else b :: rest

/-! Section: Concrete inputs used by the claims -/

/-- The section-8 sample message (valid, `9=148`, `10=089`). -/
def sampleMessage : List Nat :=
  s2b (r"8=FIX.4.4") ++ [SOH] ++ s2b (r"9=148") ++ [SOH] ++ s2b (r"35=A") ++ [SOH]
    ++ s2b (r"34=1080") ++ [SOH] ++ s2b (r"49=TESTBUY1") ++ [SOH]
    ++ s2b (r"52=20180920-18:14:19.508") ++ [SOH] ++ s2b (r"56=TESTSELL1") ++ [SOH]
    ++ s2b (r"11=636730640278898634") ++ [SOH] ++ s2b (r"15=USD") ++ [SOH]
    ++ s2b (r"21=2") ++ [SOH] ++ s2b (r"38=7000") ++ [SOH] ++ s2b (r"40=1") ++ [SOH]
    ++ s2b (r"54=1") ++ [SOH] ++ s2b (r"55=MSFT") ++ [SOH]
    ++ s2b (r"60=20180920-18:14:19.492") ++ [SOH] ++ s2b (r"10=089") ++ [SOH]

/-- The same message with the declared body length replaced by `9=042`. -/
def sample042 : List Nat :=
  s2b (r"8=FIX.4.4") ++ [SOH] ++ s2b (r"9=042") ++ [SOH] ++ s2b (r"35=A") ++ [SOH]
    ++ s2b (r"34=1080") ++ [SOH] ++ s2b (r"49=TESTBUY1") ++ [SOH]
    ++ s2b (r"52=20180920-18:14:19.508") ++ [SOH] ++ s2b (r"56=TESTSELL1") ++ [SOH]
    ++ s2b (r"11=636730640278898634") ++ [SOH] ++ s2b (r"15=USD") ++ [SOH]
    ++ s2b (r"21=2") ++ [SOH] ++ s2b (r"38=7000") ++ [SOH] ++ s2b (r"40=1") ++ [SOH]
    ++ s2b (r"54=1") ++ [SOH] ++ s2b (r"55=MSFT") ++ [SOH]
    ++ s2b (r"60=20180920-18:14:19.492") ++ [SOH] ++ s2b (r"10=089") ++ [SOH]

/-- A structurally complete message that simply ends after a body field,
with no `10=` field anywhere. -/
def noChecksumInput : List Nat :=
  s2b (r"8=FIX.4.4") ++ [SOH] ++ s2b (r"9=0") ++ [SOH] ++ s2b (r"35=A") ++ [SOH]
    ++ s2b (r"58=A") ++ [SOH]

/-- Another buffer ending without a checksum field (heartbeat with one
body field). -/
def skipChecksumInput : List Nat :=
  s2b (r"8=FIX.4.4") ++ [SOH] ++ s2b (r"9=7") ++ [SOH] ++ s2b (r"35=0") ++ [SOH]
    ++ s2b (r"56=ab") ++ [SOH]

/-- A correctly encoded one-field message:
`8=FIX.4.4␁9=10␁35=A␁58=x␁10=3␁` (30 bytes). -/
def oneFieldEncoded : List Nat :=
  Message.encode ⟨⟨.fix44, .logon, []⟩, ⟨[.custom 58 [120]]⟩⟩

/-- The same message with one stray ASCII digit appended after the
checksum field's trailing SOH. -/
def trailingDigitInput : List Nat :=
  oneFieldEncoded ++ [53]

/-- An encoded message whose second body field carries tag 10, so that a
further tag lexes after the checksum-tagged field. -/
def afterChecksumInput : List Nat :=
  Message.encode ⟨⟨.fix44, .logon, []⟩, ⟨[.custom 58 [120], .custom 10 [121]]⟩⟩

/-! Section: Decimal formatting: relation to `Nat.digits` -/

/-- The big-endian decimal digit list of `n` (`[0]` for zero). -/
def decDigits (n : Nat) : List Nat :=
  if n = 0 then [0] else (Nat.digits 10 n).reverse

theorem decimalBytesCore_eq_digits :
    ∀ (fuel n : Nat) (acc : List Nat), n ≠ 0 → n ≤ fuel →
      decimalBytesCore fuel n acc =
        ((Nat.digits 10 n).reverse.map (fun d => 48 + d)) ++ acc := by
  intro fuel
  induction fuel with
  | zero => intro n acc hn hle; omega
  | succ fuel ih =>
    intro n acc hn hle
    rw [decimalBytesCore]
    by_cases hq : n / 10 = 0
    · simp only [hq, if_true]
      rw [Nat.digits_def' (by norm_num : 1 < 10) (Nat.pos_of_ne_zero hn), hq]
      simp
    · simp only [hq, if_false]
      rw [ih (n / 10) _ hq (by omega : n / 10 ≤ fuel)]
      rw [Nat.digits_def' (by norm_num : 1 < 10) (Nat.pos_of_ne_zero hn)]
      simp

theorem decimalBytes_eq_map (n : Nat) :
    decimalBytes n = (decDigits n).map (fun d => 48 + d) := by
  by_cases hn : n = 0
  · subst hn; rfl
  · unfold decimalBytes decDigits
    rw [decimalBytesCore_eq_digits (n + 1) n [] hn (by omega)]
    simp [hn]

theorem decDigits_lt (n : Nat) : ∀ d ∈ decDigits n, d < 10 := by
  intro d hd
  unfold decDigits at hd
  by_cases hn : n = 0
  · simp [hn] at hd; omega
  · simp only [hn, if_false, List.mem_reverse] at hd
    exact Nat.digits_lt_base (by norm_num) hd

theorem decDigits_ne_nil (n : Nat) : decDigits n ≠ [] := by
  unfold decDigits
  by_cases hn : n = 0
  · simp [hn]
  · simp only [hn, if_false, ne_eq, List.reverse_eq_nil_iff]
    exact Nat.digits_ne_nil_iff_ne_zero.mpr hn

theorem foldr_eq_ofDigits (L : List Nat) :
    L.foldr (fun d a => a * 10 + d) 0 = Nat.ofDigits 10 L := by
  induction L with
  | nil => simp [Nat.ofDigits]
  | cons d L ih => simp [Nat.ofDigits, ih]; ring

theorem decDigits_foldl (n : Nat) :
    (decDigits n).foldl (fun a d => a * 10 + d) 0 = n := by
  unfold decDigits
  by_cases hn : n = 0
  · simp [hn]
  · simp only [hn, if_false]
    have h1 : (Nat.digits 10 n).reverse.foldl (fun a d => a * 10 + d) 0
        = (Nat.digits 10 n).foldr (fun d a => a * 10 + d) 0 := by
      rw [List.foldl_reverse]
    rw [h1, foldr_eq_ofDigits, Nat.ofDigits_digits]

theorem foldl_int_cast (L : List Nat) :
    ∀ a : Nat, L.foldl (fun (x : Int) (d : Nat) => x * 10 + (d : Int)) (a : Int)
      = ((L.foldl (fun x d => x * 10 + d) a : Nat) : Int) := by
  induction L with
  | nil => intro a; simp
  | cons d L ih =>
    intro a
    simp only [List.foldl_cons]
    have h : ((a : Int) * 10 + (d : Int)) = ((a * 10 + d : Nat) : Int) := by push_cast; ring
    rw [h, ih]

theorem decDigits_foldl_int (n : Nat) :
    (decDigits n).foldl (fun (a : Int) (d : Nat) => a * 10 + (d : Int)) 0 = (n : Int) := by
  have h0 : (0 : Int) = ((0 : Nat) : Int) := by norm_num
  rw [h0, foldl_int_cast, decDigits_foldl]

theorem decimalBytes_mem (n : Nat) :
    ∀ b ∈ decimalBytes n, 48 ≤ b ∧ b ≤ 57 := by
  intro b hb
  rw [decimalBytes_eq_map] at hb
  simp only [List.mem_map] at hb
  obtain ⟨d, hd, rfl⟩ := hb
  have hlt := decDigits_lt n d hd
  omega

theorem decimalBytes_ne_nil (n : Nat) : decimalBytes n ≠ [] := by
  rw [decimalBytes_eq_map]
  simp [decDigits_ne_nil]

theorem decimalBytes_isAsciiDigit (n : Nat) :
    ∀ b ∈ decimalBytes n, isAsciiDigit b = true := by
  intro b hb
  obtain ⟨h1, h2⟩ := decimalBytes_mem n b hb
  simp only [isAsciiDigit, Bool.and_eq_true, decide_eq_true_eq]
  exact ⟨h1, h2⟩

theorem decimalBytes_soh_free (n : Nat) :
    ∀ b ∈ decimalBytes n, b ≠ SOH := by
  intro b hb
  obtain ⟨h1, _⟩ := decimalBytes_mem n b hb
  simp only [SOH]
  omega

/-! Section: Integer parser lemmas -/

/-- The big-endian fold only grows from a non-negative start when the
digits are non-negative. -/
theorem foldl_digits_ge (L : List Nat) :
    ∀ a : Int, 0 ≤ a → a ≤ L.foldl (fun (x : Int) (d : Nat) => x * 10 + (d : Int)) a := by
  induction L with
  | nil => intro a _; exact le_refl a
  | cons d L ih =>
    intro a ha
    simp only [List.foldl_cons]
    have h1 : a ≤ a * 10 + (d : Int) := by
      have hd : (0 : Int) ≤ (d : Int) := Int.natCast_nonneg d
      nlinarith
    exact le_trans h1 (ih (a * 10 + (d : Int)) (by positivity))

/-- `parseLoop` on a pure big-endian digit list computes the positional
fold, provided the final value stays within the target bounds. -/
theorem parseLoop_digits (lo hi : Int) (hlo : lo ≤ 0) :
    ∀ (L : List Nat) (v : Int), (∀ d ∈ L, d < 10) → 0 ≤ v →
      L.foldl (fun (x : Int) (d : Nat) => x * 10 + (d : Int)) v ≤ hi →
      parseLoop false lo hi (L.map (fun d => 48 + d)) v
        = .ok (L.foldl (fun (x : Int) (d : Nat) => x * 10 + (d : Int)) v) := by
  intro L
  induction L with
  | nil => intro v _ _ _; rfl
  | cons d L ih =>
    intro v hdig hv hhi
    have hd : d < 10 := hdig d (List.mem_cons_self d L)
    simp only [List.foldl_cons] at hhi
    have hnext : (0 : Int) ≤ v * 10 + (d : Int) := by positivity
    have hle : v * 10 + (d : Int) ≤ hi :=
      le_trans (foldl_digits_ge L _ hnext) hhi
    have hv10nn : (0 : Int) ≤ v * 10 := by positivity
    have hdnn : (0 : Int) ≤ (d : Int) := Int.natCast_nonneg d
    have hv10lo : ¬ (v * 10 < lo ∨ hi < v * 10) := by
      push_neg
      exact ⟨by linarith, by linarith⟩
    have hdigit : isAsciiDigit (48 + d) = true := by
      simp only [isAsciiDigit, Bool.and_eq_true, decide_eq_true_eq]
      omega
    simp only [List.map_cons, parseLoop, hv10lo, if_false, hdigit,
      Bool.not_true, Bool.false_eq_true, if_neg, if_true]
    have hcast : ((48 + d : Nat) : Int) - 48 = (d : Int) := by push_cast; ring
    rw [hcast]
    have hnextlo : ¬ (v * 10 + (d : Int) < lo ∨ hi < v * 10 + (d : Int)) := by
      push_neg
      exact ⟨le_trans hlo hnext, hle⟩
    simp only [hnextlo, if_false]
    simp only [List.foldl_cons]
    exact ih (v * 10 + (d : Int)) (fun x hx => hdig x (List.mem_cons_of_mem d hx)) hnext hhi

/-- Parsing the decimal image of `n` with an unsigned instantiation of
`parse_fix_int` succeeds with `n` whenever `n` fits in the target. -/
theorem parseFixInt_decimal (lo hi : Int) (hlo : lo ≤ 0) (n : Nat) (hn : (n : Int) ≤ hi) :
    parseFixInt false lo hi (decimalBytes n) = .ok (n : Int) := by
  obtain ⟨d, L, hDL⟩ : ∃ d L, decDigits n = d :: L := by
    cases h : decDigits n with
    | nil => exact absurd h (decDigits_ne_nil n)
    | cons d L => exact ⟨d, L, rfl⟩
  have hmap : decimalBytes n = (48 + d) :: L.map (fun x => 48 + x) := by
    rw [decimalBytes_eq_map, hDL]; rfl
  have hfold : (decDigits n).foldl (fun (x : Int) (e : Nat) => x * 10 + (e : Int)) 0
      = (n : Int) := decDigits_foldl_int n
  rw [hmap]
  unfold parseFixInt
  have h45 : ¬ (48 + d = 45) := by omega
  simp only [h45, if_false]
  have := parseLoop_digits lo hi hlo (decDigits n) 0 (decDigits_lt n) (le_refl 0)
    (by rw [hfold]; exact hn)
  rw [hDL] at this
  simp only [List.map_cons] at this
  rw [this, hDL] at *
  rw [hfold]

theorem parseU8_decimal (n : Nat) (hn : n ≤ 255) : parseU8 (decimalBytes n) = .ok n := by
  unfold parseU8
  rw [parseFixInt_decimal 0 255 (by norm_num) n (by exact_mod_cast hn)]
  simp [Except.map]

theorem parseU16_decimal (n : Nat) (hn : n ≤ 65535) : parseU16 (decimalBytes n) = .ok n := by
  unfold parseU16
  rw [parseFixInt_decimal 0 65535 (by norm_num) n (by exact_mod_cast hn)]
  simp [Except.map]

theorem parseU64_decimal (n : Nat) (hn : n ≤ 18446744073709551615) :
    parseU64 (decimalBytes n) = .ok n := by
  unfold parseU64
  rw [parseFixInt_decimal 0 18446744073709551615 (by norm_num) n (by exact_mod_cast hn)]
  simp [Except.map]

theorem parseUsize_decimal (n : Nat) (hn : n ≤ 18446744073709551615) :
    parseUsize (decimalBytes n) = .ok n := by
  unfold parseUsize
  rw [parseFixInt_decimal 0 18446744073709551615 (by norm_num) n (by exact_mod_cast hn)]
  simp [Except.map]

/-! Section: Checksum lemmas -/

theorem digest_foldl_mod (L : List Nat) :
    ∀ a : Nat, L.foldl (fun acc b => (acc + b) % 256) (a % 256) = (a + L.sum) % 256 := by
  induction L with
  | nil => intro a; simp
  | cons b L ih =>
    intro a
    simp only [List.foldl_cons, List.sum_cons]
    rw [Nat.mod_add_mod, ih (a + b)]
    omega

theorem checksumOf_eq_sum (L : List Nat) : checksumOf L = L.sum % 256 := by
  unfold checksumOf Digest.push
  have h := digest_foldl_mod L 0
  simpa using h

theorem checksumOf_lt (L : List Nat) : checksumOf L < 256 := by
  rw [checksumOf_eq_sum]
  exact Nat.mod_lt _ (by norm_num)

/-! Section: Lexer lemmas -/

theorem drop_add (l : List Nat) (c k : Nat) : l.drop (c + k) = (l.drop c).drop k := by
  rw [List.drop_drop, Nat.add_comm]

theorem takeWhile_append_cons (p : Nat → Bool) :
    ∀ (L : List Nat) (x : Nat) (S : List Nat), (∀ b ∈ L, p b = true) → p x = false →
      (L ++ x :: S).takeWhile p = L := by
  intro L
  induction L with
  | nil => intro x S _ hx; simp [List.takeWhile_cons, hx]
  | cons a L ih =>
    intro x S hL hx
    have ha : p a = true := hL a (List.mem_cons_self a L)
    simp only [List.cons_append, List.takeWhile_cons, ha, if_true]
    rw [ih x S (fun b hb => hL b (List.mem_cons_of_mem a hb)) hx]

theorem takeWhile_eq_self (p : Nat → Bool) :
    ∀ L : List Nat, (∀ b ∈ L, p b = true) → L.takeWhile p = L := by
  intro L
  induction L with
  | nil => intro _; rfl
  | cons a L ih =>
    intro hL
    have ha : p a = true := hL a (List.mem_cons_self a L)
    simp only [List.takeWhile_cons, ha, if_true]
    rw [ih (fun b hb => hL b (List.mem_cons_of_mem a hb))]

/-- A successful tag lex: the input at the cursor starts with the decimal
image of a tag that fits in `u16`, followed by `=`. -/
theorem Lexer.tag_spec (I : List Nat) (c t : Nat) (rest : List Nat)
    (ht : t ≤ 65535) (hdrop : I.drop c = decimalBytes t ++ EQUALS :: rest) :
    Lexer.tag ⟨I, c⟩ = (.ok t, ⟨I, c + (decimalBytes t).length + 1⟩) := by
  have htake : (I.drop c).takeWhile isAsciiDigit = decimalBytes t := by
    rw [hdrop]
    exact takeWhile_append_cons isAsciiDigit (decimalBytes t) EQUALS rest
      (decimalBytes_isAsciiDigit t) (by decide)
  have hatEq : I[c + (decimalBytes t).length]? = some EQUALS := by
    rw [← List.getElem?_drop, hdrop]
    rw [List.getElem?_append_right (le_refl (decimalBytes t).length)]
    simp
  unfold Lexer.tag
  simp only [htake]
  unfold Lexer.skip
  simp only [hatEq, ne_eq, not_true_eq_false, if_neg, reduceIte]
  rw [parseU16_decimal t ht]

/-- A successful value lex: the input at the cursor holds an SOH-free
value followed by an SOH byte. -/
theorem Lexer.value_spec (I : List Nat) (c : Nat) (v rest : List Nat)
    (hv : ∀ b ∈ v, b ≠ SOH) (hdrop : I.drop c = v ++ SOH :: rest) :
    Lexer.value ⟨I, c⟩ = (.ok v, ⟨I, c + v.length + 1⟩) := by
  have htake : (I.drop c).takeWhile (fun b => b ≠ SOH) = v := by
    rw [hdrop]
    refine takeWhile_append_cons _ v SOH rest ?_ (by simp)
    intro b hb
    simpa using hv b hb
  have hatSoh : I[c + v.length]? = some SOH := by
    rw [← List.getElem?_drop, hdrop]
    rw [List.getElem?_append_right (le_refl v.length)]
    simp
  unfold Lexer.value
  simp only [htake]
  unfold Lexer.skipOrEoi
  simp only [hatSoh]
  unfold Lexer.skip
  simp only [hatSoh, ne_eq, not_true_eq_false, if_neg, reduceIte]

/-- A tag lex at or past the end of input fails with `EOI` and leaves the
cursor unchanged. -/
theorem Lexer.tag_eoi (I : List Nat) (c : Nat) (hc : I.length ≤ c) :
    Lexer.tag ⟨I, c⟩ = (.error .eoi, ⟨I, c⟩) := by
  have hdrop : I.drop c = [] := List.drop_eq_nil_of_le hc
  unfold Lexer.tag
  simp only [hdrop, List.takeWhile_nil, List.length_nil, Nat.add_zero]
  unfold Lexer.skip
  simp [List.getElem?_eq_none hc]

/-! Section: Round-trip: the `consumeFields` loop on an encoded tail -/

theorem encField_shape (f : Field) (S : List Nat) :
    (f.encode ++ [SOH]) ++ S = decimalBytes f.tag ++ EQUALS :: (f.value ++ SOH :: S) := by
  unfold Field.encode
  simp

theorem drop_append_cons (L : List Nat) (x : Nat) (S : List Nat) :
    (L ++ x :: S).drop (L.length + 1) = S := by
  have h1 : L ++ x :: S = (L ++ [x]) ++ S := by simp
  have h2 : L.length + 1 = (L ++ [x]).length := by simp
  rw [h1, h2, List.drop_left]

theorem encFields_length_ge (L : List Field) :
    L.length ≤ ((L.map (fun f => f.encode ++ [SOH])).flatten).length := by
  induction L with
  | nil => simp
  | cons f L ih =>
    simp only [List.map_cons, List.flatten_cons, List.length_cons, List.length_append]
    have : 1 ≤ (f.encode ++ [SOH]).length := by simp
    omega

/-- Main loop lemma: started at a cursor from which the remaining input
is the encoding of `rest` (all re-constructible, non-checksum fields)
followed by a correct checksum field, the loop appends exactly `rest` to
the accumulated body and succeeds. -/
theorem consumeFields_spec :
    ∀ (rest : List Field) (fuel : Nat) (I : List Nat) (c : Nat) (acc : List Field)
      (bodyStart N csum : Nat),
      (∀ f ∈ rest, goodField f) →
      rest.length + 2 ≤ fuel →
      I.drop c = ((rest.map (fun f => f.encode ++ [SOH])).flatten)
                 ++ (Field.encode (.custom 10 (decimalBytes csum)) ++ [SOH]) →
      csum = checksumOf (I.take (c + ((rest.map (fun f => f.encode ++ [SOH])).flatten).length)) →
      N = c + ((rest.map (fun f => f.encode ++ [SOH])).flatten).length - bodyStart →
      consumeFields fuel ⟨I, c⟩ bodyStart N acc = .ok (acc ++ rest) := by
  intro rest
  induction rest with
  | nil =>
    intro fuel I c acc bodyStart N csum _ hfuel hdrop hcs hN
    simp only [List.map_nil, List.flatten_nil, List.nil_append, List.length_nil,
      Nat.add_zero] at hdrop hcs hN
    obtain ⟨f1, rfl⟩ : ∃ f1, fuel = f1 + 1 := ⟨fuel - 1, by omega⟩
    have hshape := encField_shape (.custom 10 (decimalBytes csum)) []
    simp only [List.append_nil, Field.tag, Field.value] at hshape
    rw [hshape] at hdrop
    have hcle : c ≤ I.length := by
      by_contra hgt
      have hnil : I.drop c = [] := List.drop_eq_nil_of_le (by omega)
      rw [hnil] at hdrop
      exact absurd hdrop.symm (by simp)
    have hd2 : (decimalBytes 10).length = 2 := by decide
    have hlen : I.length = c + (decimalBytes csum).length + 4 := by
      have h1 := congrArg List.length hdrop
      simp only [List.length_drop, List.length_append, List.length_cons,
        List.length_nil, hd2] at h1
      omega
    have htag : Lexer.tag ⟨I, c⟩
        = (.ok 10, ⟨I, c + (decimalBytes 10).length + 1⟩) :=
      Lexer.tag_spec I c 10 (decimalBytes csum ++ SOH :: []) (by norm_num) hdrop
    have hval : Lexer.value ⟨I, c + (decimalBytes 10).length + 1⟩
        = (.ok (decimalBytes csum),
           ⟨I, (c + (decimalBytes 10).length + 1) + (decimalBytes csum).length + 1⟩) := by
      apply Lexer.value_spec I _ (decimalBytes csum) [] (decimalBytes_soh_free csum)
      rw [show c + (decimalBytes 10).length + 1 = c + ((decimalBytes 10).length + 1) by omega,
        drop_add, hdrop, drop_append_cons]
    have hprobe : Lexer.tag ⟨I, (c + (decimalBytes 10).length + 1) + (decimalBytes csum).length + 1⟩
        = (.error .eoi, ⟨I, (c + (decimalBytes 10).length + 1) + (decimalBytes csum).length + 1⟩) :=
      Lexer.tag_eoi I _ (by omega)
    rw [consumeFields, htag]
    simp only [hval, hprobe, reduceIte]
    have hcursor : (c + (decimalBytes 10).length + 1) + (decimalBytes csum).length + 1 - 1
        - (decimalBytes csum).length - 1 - 2 = c := by omega
    rw [hcursor]
    have hrecvN : ¬ (c - bodyStart ≠ N) := by omega
    rw [if_neg hrecvN]
    have hcs8 : csum ≤ 255 := by
      have hlt := checksumOf_lt (I.take c)
      omega
    rw [parseU8_decimal csum hcs8]
    simp only []
    rw [if_neg (show ¬ (checksumOf (I.take c) ≠ csum) from fun h => h hcs.symm)]
    obtain ⟨f2, rfl⟩ : ∃ f2, f1 = f2 + 1 := ⟨f1 - 1, by omega⟩
    rw [consumeFields, Lexer.tag_eoi I _ (by omega)]
    simp
  | cons f rest' ih =>
    intro fuel I c acc bodyStart N csum hgood hfuel hdrop hcs hN
    obtain ⟨f1, rfl⟩ : ∃ f1, fuel = f1 + 1 := ⟨fuel - 1, by omega⟩
    obtain ⟨hf10, hf16, hfsoh, hftry⟩ := hgood f (List.mem_cons_self f rest')
    simp only [List.map_cons, List.flatten_cons] at hdrop hcs hN
    rw [List.append_assoc] at hdrop
    have htag : Lexer.tag ⟨I, c⟩
        = (.ok f.tag, ⟨I, c + (decimalBytes f.tag).length + 1⟩) := by
      apply Lexer.tag_spec I c f.tag
        (f.value ++ SOH :: ((rest'.map (fun g => g.encode ++ [SOH])).flatten
          ++ (Field.encode (.custom 10 (decimalBytes csum)) ++ [SOH]))) hf16
      rw [hdrop, encField_shape]
    have hval : Lexer.value ⟨I, c + (decimalBytes f.tag).length + 1⟩
        = (.ok f.value,
           ⟨I, (c + (decimalBytes f.tag).length + 1) + f.value.length + 1⟩) := by
      apply Lexer.value_spec I _ f.value
        ((rest'.map (fun g => g.encode ++ [SOH])).flatten
          ++ (Field.encode (.custom 10 (decimalBytes csum)) ++ [SOH])) hfsoh
      rw [show c + (decimalBytes f.tag).length + 1 = c + ((decimalBytes f.tag).length + 1) by omega,
        drop_add, hdrop, encField_shape]
      rw [drop_append_cons]
    rw [consumeFields, htag]
    simp only []
    rw [hval]
    simp only [if_neg hf10]
    rw [hftry]
    simp only []
    have hc2 : (c + (decimalBytes f.tag).length + 1) + f.value.length + 1
        = c + (f.encode ++ [SOH]).length := by
      unfold Field.encode
      simp only [List.length_append, List.length_cons, List.length_nil]
      omega
    rw [hc2]
    have hres := ih f1 I (c + (f.encode ++ [SOH]).length) (acc ++ [f]) bodyStart N csum
      (fun g hg => hgood g (List.mem_cons_of_mem f hg))
      (by simp only [List.length_cons] at hfuel; omega)
      (by rw [show c + (f.encode ++ [SOH]).length = c + ((f.encode ++ [SOH]).length) from rfl,
        drop_add, hdrop, List.drop_left])
      (by rw [hcs]; congr 1; congr 1; simp [List.length_append]; omega)
      (by rw [hN]; simp [List.length_append]; omega)
    rw [hres]
    simp

/-- Lexing one encoded field `tag=value␁` at the cursor: the tag and the
value come back exactly, and the cursor ends up after the trailing SOH. -/
theorem lex_field (I : List Nat) (c : Nat) (f : Field) (S : List Nat)
    (h16 : f.tag ≤ 65535) (hsoh : ∀ b ∈ f.value, b ≠ SOH)
    (hdrop : I.drop c = (f.encode ++ [SOH]) ++ S) :
    Lexer.tag ⟨I, c⟩ = (.ok f.tag, ⟨I, c + (decimalBytes f.tag).length + 1⟩)
    ∧ Lexer.value ⟨I, c + (decimalBytes f.tag).length + 1⟩
        = (.ok f.value, ⟨I, c + (f.encode ++ [SOH]).length⟩)
    ∧ I.drop (c + (f.encode ++ [SOH]).length) = S := by
  have hshape : I.drop c = decimalBytes f.tag ++ EQUALS :: (f.value ++ SOH :: S) := by
    rw [hdrop, encField_shape]
  have hc2 : (c + (decimalBytes f.tag).length + 1) + f.value.length + 1
      = c + (f.encode ++ [SOH]).length := by
    unfold Field.encode
    simp only [List.length_append, List.length_cons, List.length_nil]
    omega
  refine ⟨Lexer.tag_spec I c f.tag _ h16 hshape, ?_, ?_⟩
  · rw [← hc2]
    apply Lexer.value_spec I _ f.value (S) hsoh
    rw [show c + (decimalBytes f.tag).length + 1 = c + ((decimalBytes f.tag).length + 1) by omega,
      drop_add, hshape, drop_append_cons]
  · rw [show c + (f.encode ++ [SOH]).length = c + ((f.encode ++ [SOH]).length) from rfl,
      drop_add, hdrop, List.drop_left]

theorem beginString_bytes_soh_free (bs : BeginString) : ∀ b ∈ bs.toBytes, b ≠ SOH := by
  cases bs <;> decide

theorem msgType_bytes_soh_free (mt : MsgType) : ∀ b ∈ mt.toBytes, b ≠ SOH := by
  cases mt <;> decide

theorem beginString_roundtrip (bs : BeginString) :
    BeginString.fromFixBytes bs.toBytes = .ok bs := by
  cases bs <;> decide

theorem msgType_roundtrip (mt : MsgType) :
    MsgType.fromFixBytes mt.toBytes = .ok mt := by
  cases mt <;> decide

/-- Round-trip core: decoding the encoding of a message with no optional
header fields and a body of re-constructible fields returns the message
itself. -/
theorem decode_encode (bs : BeginString) (mt : MsgType) (f0 : Field) (rest : List Field)
    (hgood : ∀ f ∈ f0 :: rest, goodField f)
    (hreg : (encodeRegularFields ⟨bs, mt, []⟩ ⟨f0 :: rest⟩).length ≤ 18446744073709551615) :
    decode (Message.encode ⟨⟨bs, mt, []⟩, ⟨f0 :: rest⟩⟩)
      = .ok ⟨⟨bs, mt, []⟩, ⟨f0 :: rest⟩⟩ := by
  obtain ⟨hf016, hf0soh, hf0try⟩ :
      f0.tag ≤ 65535 ∧ (∀ b ∈ f0.value, b ≠ SOH) ∧ Field.tryNew f0.tag f0.value = .ok f0 := by
    obtain ⟨_, h2, h3, h4⟩ := hgood f0 (List.mem_cons_self f0 rest)
    exact ⟨h2, h3, h4⟩
  obtain ⟨R, hR⟩ : ∃ R, encodeRegularFields ⟨bs, mt, []⟩ ⟨f0 :: rest⟩ = R := ⟨_, rfl⟩
  obtain ⟨M, hM⟩ : ∃ M, encodeFramingHeaders ⟨bs, mt, []⟩ R = M := ⟨_, rfl⟩
  obtain ⟨I, hI⟩ : ∃ I, Message.encode ⟨⟨bs, mt, []⟩, ⟨f0 :: rest⟩⟩ = I := ⟨_, rfl⟩
  rw [hR] at hreg
  -- the four leading pieces and the trailer
  have hMshape : M = ((Field.custom 8 bs.toBytes).encode ++ [SOH])
      ++ (((Field.custom 9 (decimalBytes R.length)).encode ++ [SOH]) ++ R) := by
    rw [← hM]
    unfold encodeFramingHeaders
    simp
  have hRshape : R = ((Field.custom 35 mt.toBytes).encode ++ [SOH])
      ++ ((f0.encode ++ [SOH]) ++ (rest.map (fun g => g.encode ++ [SOH])).flatten) := by
    rw [← hR]
    unfold encodeRegularFields
    simp
  have hIshape : I = M ++ ((Field.custom 10 (decimalBytes (checksumOf M))).encode ++ [SOH]) := by
    rw [← hI, ← hM, ← hR]
    rfl
  -- field-by-field lexing
  have hd0 : I.drop 0 = ((Field.custom 8 bs.toBytes).encode ++ [SOH])
      ++ ((((Field.custom 9 (decimalBytes R.length)).encode ++ [SOH]) ++ R)
        ++ ((Field.custom 10 (decimalBytes (checksumOf M))).encode ++ [SOH])) := by
    rw [List.drop_zero, hIshape, hMshape]
    simp [List.append_assoc]
  obtain ⟨htag1, hval1, hd1⟩ := lex_field I 0 (Field.custom 8 bs.toBytes) _
    (by simp [Field.tag]) (by cases bs <;> decide) hd0
  have hd1' : I.drop (0 + ((Field.custom 8 bs.toBytes).encode ++ [SOH]).length)
      = ((Field.custom 9 (decimalBytes R.length)).encode ++ [SOH])
        ++ (R ++ ((Field.custom 10 (decimalBytes (checksumOf M))).encode ++ [SOH])) := by
    rw [hd1]
    simp [List.append_assoc]
  obtain ⟨htag2, hval2, hd2⟩ := lex_field I _ (Field.custom 9 (decimalBytes R.length)) _
    (by simp [Field.tag]) (by exact decimalBytes_soh_free R.length) hd1'
  have hd2' : I.drop (0 + ((Field.custom 8 bs.toBytes).encode ++ [SOH]).length
        + ((Field.custom 9 (decimalBytes R.length)).encode ++ [SOH]).length)
      = ((Field.custom 35 mt.toBytes).encode ++ [SOH])
        ++ (((f0.encode ++ [SOH]) ++ (rest.map (fun g => g.encode ++ [SOH])).flatten)
          ++ ((Field.custom 10 (decimalBytes (checksumOf M))).encode ++ [SOH])) := by
    rw [hd2, hRshape]
    simp [List.append_assoc]
  obtain ⟨htag3, hval3, hd3⟩ := lex_field I _ (Field.custom 35 mt.toBytes) _
    (by simp [Field.tag]) (by cases mt <;> decide) hd2'
  have hd3' : I.drop (0 + ((Field.custom 8 bs.toBytes).encode ++ [SOH]).length
        + ((Field.custom 9 (decimalBytes R.length)).encode ++ [SOH]).length
        + ((Field.custom 35 mt.toBytes).encode ++ [SOH]).length)
      = (f0.encode ++ [SOH])
        ++ ((rest.map (fun g => g.encode ++ [SOH])).flatten
          ++ ((Field.custom 10 (decimalBytes (checksumOf M))).encode ++ [SOH])) := by
    rw [hd3]
    simp [List.append_assoc]
  obtain ⟨htag4, hval4, hd4⟩ := lex_field I _ f0 _ hf016 hf0soh hd3'
  -- the loop
  have hlenM : M.length = 0 + ((Field.custom 8 bs.toBytes).encode ++ [SOH]).length
      + ((Field.custom 9 (decimalBytes R.length)).encode ++ [SOH]).length
      + ((Field.custom 35 mt.toBytes).encode ++ [SOH]).length
      + (f0.encode ++ [SOH]).length
      + ((rest.map (fun g => g.encode ++ [SOH])).flatten).length := by
    rw [hMshape, hRshape]
    simp [List.length_append]
    omega
  have hlenR : R.length = ((Field.custom 35 mt.toBytes).encode ++ [SOH]).length
      + (f0.encode ++ [SOH]).length
      + ((rest.map (fun g => g.encode ++ [SOH])).flatten).length := by
    rw [hRshape]
    simp [List.length_append]
    omega
  have hloop := consumeFields_spec rest (I.length + 1) I
    (0 + ((Field.custom 8 bs.toBytes).encode ++ [SOH]).length
      + ((Field.custom 9 (decimalBytes R.length)).encode ++ [SOH]).length
      + ((Field.custom 35 mt.toBytes).encode ++ [SOH]).length
      + (f0.encode ++ [SOH]).length)
    [f0]
    (0 + ((Field.custom 8 bs.toBytes).encode ++ [SOH]).length
      + ((Field.custom 9 (decimalBytes R.length)).encode ++ [SOH]).length)
    R.length (checksumOf M)
    (fun g hg => hgood g (List.mem_cons_of_mem f0 hg))
    (by
      have hfl := encFields_length_ge rest
      have hIlen : I.length = M.length
          + ((Field.custom 10 (decimalBytes (checksumOf M))).encode ++ [SOH]).length := by
        rw [hIshape]; simp
      have h1 : 1 ≤ ((Field.custom 10 (decimalBytes (checksumOf M))).encode ++ [SOH]).length := by
        simp
      omega)
    hd4
    (by
      rw [show (0 + ((Field.custom 8 bs.toBytes).encode ++ [SOH]).length
          + ((Field.custom 9 (decimalBytes R.length)).encode ++ [SOH]).length
          + ((Field.custom 35 mt.toBytes).encode ++ [SOH]).length
          + (f0.encode ++ [SOH]).length)
          + ((rest.map (fun g => g.encode ++ [SOH])).flatten).length = M.length by omega]
      rw [hIshape, List.take_left])
    (by omega)
  -- assemble the decoder run
  rw [hI]
  unfold decode
  rw [htag1]
  simp only []
  rw [hval1]
  simp only [Field.tag, Field.value] at htag2 hval2 htag3 hval3 ⊢
  simp only [ne_eq, not_true_eq_false, if_neg, reduceIte, Field.value]
  rw [beginString_roundtrip bs]
  simp only []
  rw [htag2]
  simp only []
  rw [hval2]
  simp only [reduceIte]
  rw [parseUsize_decimal R.length hreg]
  simp only []
  rw [htag3]
  simp only [reduceIte]
  rw [hval3]
  simp only []
  rw [msgType_roundtrip mt]
  simp only []
  rw [htag4]
  simp only []
  rw [hval4]
  simp only []
  rw [hf0try]
  simp only []
  rw [hloop]
  simp

/-! Section: One-iteration facts about the checksum handling of the loop -/

/-- If the loop's next field is the checksum (tag 10), its value lexes to
`v`, the probe for a following tag fails leaving the lexer `l3`, and the
whole loop run succeeds, then the measured body length matched the
declared one and the checksum value parsed to the modulo-256 sum of the
input bytes before the checksum field (as located by the decoder's cursor
arithmetic). -/
theorem consumeFields_checksum_ok (fuel : Nat) (l l1 l2 l3 : Lexer) (v : List Nat)
    (e : LexError) (bodyStart N : Nat) (acc out : List Field)
    (htag : l.tag = (.ok 10, l1)) (hval : l1.value = (.ok v, l2))
    (hprobe : l2.tag = (.error e, l3))
    (hok : consumeFields (fuel + 1) l bodyStart N acc = .ok out) :
    (l3.cursor - 1 - v.length - 1 - 2) - bodyStart = N
    ∧ parseU8 v = .ok ((l3.input.take (l3.cursor - 1 - v.length - 1 - 2)).sum % 256) := by
  rw [consumeFields, htag] at hok
  simp only [] at hok
  rw [hval] at hok
  simp only [reduceIte] at hok
  rw [hprobe] at hok
  simp only [] at hok
  by_cases h1 : (l3.cursor - 1 - v.length - 1 - 2) - bodyStart ≠ N
  · rw [if_pos h1] at hok
    exact absurd hok (by simp)
  · rw [if_neg h1] at hok
    refine ⟨not_not.mp h1, ?_⟩
    cases hp : parseU8 v with
    | error err =>
      rw [hp] at hok
      exact absurd hok (by simp)
    | ok expected =>
      rw [hp] at hok
      simp only [] at hok
      by_cases h2 : checksumOf (l3.input.take (l3.cursor - 1 - v.length - 1 - 2)) ≠ expected
      · rw [if_pos h2] at hok
        exact absurd hok (by simp)
      · rw [← checksumOf_eq_sum, not_not.mp h2]

/-- If the loop's next field is the checksum, the probe fails, and the
measured body length (decoder cursor arithmetic) differs from the
declared one, the loop fails with exactly that `BodyLength` error. -/
theorem consumeFields_bodyLength_step (fuel : Nat) (l l1 l2 l3 : Lexer) (v : List Nat)
    (e : LexError) (bodyStart N : Nat) (acc : List Field)
    (htag : l.tag = (.ok 10, l1)) (hval : l1.value = (.ok v, l2))
    (hprobe : l2.tag = (.error e, l3))
    (hne : (l3.cursor - 1 - v.length - 1 - 2) - bodyStart ≠ N) :
    consumeFields (fuel + 1) l bodyStart N acc
      = .error (.bodyLength ((l3.cursor - 1 - v.length - 1 - 2) - bodyStart) N) := by
  rw [consumeFields, htag]
  simp only []
  rw [hval]
  simp only [reduceIte]
  rw [hprobe]
  simp only []
  rw [if_pos hne]

/-- If a further tag lexes successfully right after the checksum field's
value, the loop fails with `UnexpectedChecksum`. -/
theorem consumeFields_unexpected_step (fuel : Nat) (l l1 l2 l3 : Lexer) (v : List Nat)
    (t : Nat) (bodyStart N : Nat) (acc : List Field)
    (htag : l.tag = (.ok 10, l1)) (hval : l1.value = (.ok v, l2))
    (hprobe : l2.tag = (.ok t, l3)) :
    consumeFields (fuel + 1) l bodyStart N acc = .error .unexpectedChecksum := by
  rw [consumeFields, htag]
  simp only []
  rw [hval]
  simp only [reduceIte]
  rw [hprobe]

/-! Section: Universal integer-parser facts -/

theorem parseLoop_nondigit (neg : Bool) (lo hi : Int) :
    ∀ (L : List Nat) (v : Int), (∃ b ∈ L, isAsciiDigit b = false) →
      parseLoop neg lo hi L v = .error .invalidDigit
      ∨ parseLoop neg lo hi L v = .error .overflow := by
  intro L
  induction L with
  | nil =>
    intro v hex
    obtain ⟨b, hb, _⟩ := hex
    exact absurd hb (List.not_mem_nil b)
  | cons b rest ih =>
    intro v hex
    rw [parseLoop]
    by_cases hmul : (v * 10 < lo ∨ hi < v * 10)
    · rw [if_pos hmul]
      exact Or.inr rfl
    · rw [if_neg hmul]
      by_cases hb : isAsciiDigit b
      · simp only [hb, not_true_eq_false, if_false, reduceIte]
        by_cases hnext : ((if neg then v * 10 - ((b : Int) - 48) else v * 10 + ((b : Int) - 48)) < lo
            ∨ hi < (if neg then v * 10 - ((b : Int) - 48) else v * 10 + ((b : Int) - 48)))
        · rw [if_pos hnext]
          exact Or.inr rfl
        · rw [if_neg hnext]
          apply ih
          obtain ⟨x, hx, hxd⟩ := hex
          rcases List.mem_cons.mp hx with hxb | hxr
          · rw [hxb] at hxd
            rw [hxd] at hb
            exact absurd hb (by simp)
          · exact ⟨x, hxr, hxd⟩
      · simp only [hb, not_false_eq_true, if_true, reduceIte]
        exact Or.inl rfl

/-- With a non-digit byte anywhere after the optional sign, the parser
never succeeds: it fails with `InvalidDigit`, or with `Overflow` when a
checked multiply/add overflows before the offending byte is examined. -/
theorem parseFixInt_nondigit (signed : Bool) (lo hi : Int) (bytes : List Nat)
    (h : ∃ b ∈ signStripped signed bytes, isAsciiDigit b = false) :
    parseFixInt signed lo hi bytes = .error .invalidDigit
    ∨ parseFixInt signed lo hi bytes = .error .overflow := by
  match bytes with
  | [] =>
    obtain ⟨b, hb, _⟩ := h
    exact absurd hb (List.not_mem_nil b)
  | b :: rest =>
    rw [parseFixInt]
    by_cases hb45 : b = 45
    · cases hsigned : signed with
      | true =>
        simp only [hb45, if_pos rfl, reduceIte]
        apply parseLoop_nondigit
        unfold signStripped at h
        rw [hsigned] at h
        simpa [hb45] using h
      | false =>
        simp only [hb45, if_pos rfl, reduceIte]
        exact Or.inr rfl
    · simp only [if_neg hb45]
      apply parseLoop_nondigit
      unfold signStripped at h
      simpa [hb45] using h

theorem parseLoop_range (neg : Bool) (lo hi : Int) :
    ∀ (L : List Nat) (v : Int), lo ≤ v → v ≤ hi → ∀ w,
      parseLoop neg lo hi L v = .ok w → lo ≤ w ∧ w ≤ hi := by
  intro L
  induction L with
  | nil =>
    intro v hlo hhi w hw
    rw [parseLoop] at hw
    cases hw
    exact ⟨hlo, hhi⟩
  | cons b rest ih =>
    intro v hlo hhi w hw
    rw [parseLoop] at hw
    by_cases hmul : (v * 10 < lo ∨ hi < v * 10)
    · rw [if_pos hmul] at hw
      exact absurd hw (by simp)
    · rw [if_neg hmul] at hw
      by_cases hb : isAsciiDigit b
      · simp only [hb, not_true_eq_false, if_false, reduceIte] at hw
        by_cases hnext : ((if neg then v * 10 - ((b : Int) - 48) else v * 10 + ((b : Int) - 48)) < lo
            ∨ hi < (if neg then v * 10 - ((b : Int) - 48) else v * 10 + ((b : Int) - 48)))
        · rw [if_pos hnext] at hw
          exact absurd hw (by simp)
        · rw [if_neg hnext] at hw
          push_neg at hnext
          exact ih _ hnext.1 hnext.2 w hw
      · simp only [hb, not_false_eq_true, if_true, reduceIte] at hw
        exact absurd hw (by simp)

/-- `parse_fix_int` never wraps: a successful parse is within the target
type's bounds. -/
theorem parseFixInt_range (signed : Bool) (lo hi : Int) (bytes : List Nat) (w : Int)
    (hlo : lo ≤ 0) (hhi : 0 ≤ hi)
    (h : parseFixInt signed lo hi bytes = .ok w) : lo ≤ w ∧ w ≤ hi := by
  match bytes with
  | [] =>
    rw [parseFixInt] at h
    exact parseLoop_range false lo hi [] 0 hlo hhi w h
  | b :: rest =>
    rw [parseFixInt] at h
    by_cases hb45 : b = 45
    · rw [if_pos hb45] at h
      cases signed with
      | true =>
        simp only [reduceIte] at h
        exact parseLoop_range true lo hi rest 0 hlo hhi w h
      | false =>
        simp only [Bool.false_eq_true, reduceIte] at h
        exact absurd h (by simp)
    · rw [if_neg hb45] at h
      exact parseLoop_range false lo hi (b :: rest) 0 hlo hhi w h

/-- A leading minus on an unsigned instantiation is an overflow error. -/
theorem parseFixInt_minus_unsigned (lo hi : Int) (rest : List Nat) :
    parseFixInt false lo hi (45 :: rest) = .error .overflow := by
  simp [parseFixInt]

/-! Section: Fuel adequacy of the loop embedding

The Rust loop has no fuel; the embedding's fuel of `input.length + 1` is
enough because every iteration strictly advances the cursor.  The lemmas
below make that precise: the result of `consumeFields` is unchanged by
adding fuel once the fuel exceeds the remaining input. -/

theorem Lexer.tag_bounds (l : Lexer) :
    ((l.tag).2).input = l.input
    ∧ l.cursor ≤ ((l.tag).2).cursor
    ∧ (l.cursor ≤ l.input.length → ((l.tag).2).cursor ≤ l.input.length)
    ∧ (∀ t l', l.tag = (.ok t, l') → l.cursor < l'.cursor) := by
  have htb : ((l.input.drop l.cursor).takeWhile isAsciiDigit).length
      ≤ l.input.length - l.cursor := by
    have h1 := (List.takeWhile_sublist (l := l.input.drop l.cursor) isAsciiDigit).length_le
    rw [List.length_drop] at h1
    exact h1
  unfold Lexer.tag Lexer.skip
  cases hg : l.input[l.cursor + ((l.input.drop l.cursor).takeWhile isAsciiDigit).length]? with
  | none =>
    simp only [hg]
    refine ⟨by trivial, by omega, by omega, ?_⟩
    intro t l' hcontra
    simp at hcontra
  | some b =>
    have hlt : l.cursor + ((l.input.drop l.cursor).takeWhile isAsciiDigit).length
        < l.input.length := by
      by_contra hge
      rw [List.getElem?_eq_none (by omega)] at hg
      exact absurd hg (by simp)
    by_cases hb : b ≠ EQUALS
    · simp only [hg, if_pos hb]
      refine ⟨by trivial, by omega, by omega, ?_⟩
      intro t l' hcontra
      simp at hcontra
    · simp only [hg, if_neg hb]
      cases hp : parseU16 ((l.input.drop l.cursor).takeWhile isAsciiDigit) with
      | error e =>
        simp only [hp]
        refine ⟨by trivial, by omega, by omega, ?_⟩
        intro t l' hcontra
        simp at hcontra
      | ok t0 =>
        simp only [hp]
        refine ⟨by trivial, by omega, by omega, ?_⟩
        intro t l' heq
        simp only [Prod.mk.injEq] at heq
        rw [← heq.2]
        simp only []
        omega

theorem Lexer.value_bounds (l : Lexer) :
    ((l.value).2).input = l.input
    ∧ l.cursor ≤ ((l.value).2).cursor
    ∧ (l.cursor ≤ l.input.length → ((l.value).2).cursor ≤ l.input.length) := by
  have hvb : ((l.input.drop l.cursor).takeWhile (fun b => b ≠ SOH)).length
      ≤ l.input.length - l.cursor := by
    have h1 := (List.takeWhile_sublist (l := l.input.drop l.cursor)
      (fun b => decide (b ≠ SOH))).length_le
    rw [List.length_drop] at h1
    exact h1
  unfold Lexer.value Lexer.skipOrEoi Lexer.skip
  cases hg : l.input[l.cursor + ((l.input.drop l.cursor).takeWhile (fun b => b ≠ SOH)).length]? with
  | none =>
    simp only [hg]
    exact ⟨by trivial, by omega, by omega⟩
  | some b =>
    have hlt : l.cursor + ((l.input.drop l.cursor).takeWhile (fun b => b ≠ SOH)).length
        < l.input.length := by
      by_contra hge
      rw [List.getElem?_eq_none (by omega)] at hg
      exact absurd hg (by simp)
    by_cases hb : b ≠ SOH
    · simp only [hg, if_pos hb]
      exact ⟨by trivial, by omega, by omega⟩
    · simp only [hg, if_neg hb]
      exact ⟨by trivial, by omega, by omega⟩

/-- Adding one unit of fuel does not change the loop's result once the
fuel already exceeds the remaining input: the embedding's fixed fuel of
`input.length + 1` (from cursor 0) therefore behaves as the unbounded
Rust loop. -/
theorem consumeFields_fuel_sufficient :
    ∀ (fuel : Nat) (l : Lexer) (bodyStart N : Nat) (acc : List Field),
      l.cursor ≤ l.input.length → l.input.length < l.cursor + fuel →
      consumeFields fuel l bodyStart N acc = consumeFields (fuel + 1) l bodyStart N acc := by
  intro fuel
  induction fuel with
  | zero =>
    intro l _ _ _ hc hlt
    exact absurd hlt (by omega)
  | succ f ih =>
    intro l bodyStart N acc hc hlt
    obtain ⟨hti, htc, htlen, htok⟩ := Lexer.tag_bounds l
    rcases htag : l.tag with ⟨r1, l1⟩
    rw [htag] at hti htc htlen htok
    simp only [] at hti htc htlen
    cases r1 with
    | error e =>
      rw [consumeFields, consumeFields, htag]
    | ok t =>
      have hl1c : l.cursor < l1.cursor := htok t l1 rfl
      obtain ⟨hvi, hvc, hvlen⟩ := Lexer.value_bounds l1
      rcases hval : l1.value with ⟨r2, l2⟩
      rw [hval] at hvi hvc hvlen
      simp only [] at hvi hvc hvlen
      cases r2 with
      | error e2 =>
        rw [consumeFields, consumeFields, htag]
        simp only []
        rw [hval]
      | ok v =>
        by_cases ht10 : t = 10
        · subst ht10
          obtain ⟨hpi, hpc, hplen, _⟩ := Lexer.tag_bounds l2
          rcases hprobe : l2.tag with ⟨r3, l3⟩
          rw [hprobe] at hpi hpc hplen
          simp only [] at hpi hpc hplen
          cases r3 with
          | ok t3 =>
            rw [consumeFields, consumeFields, htag]
            simp only []
            rw [hval]
            simp only [reduceIte]
            rw [hprobe]
          | error e3 =>
            have hrec : consumeFields f l3 bodyStart N acc
                = consumeFields (f + 1) l3 bodyStart N acc := by
              apply ih
              · rw [hpi]
                apply hplen
                rw [hvi]
                apply hvlen
                rw [hti]
                exact htlen hc
              · rw [hpi, hvi, hti]
                omega
            rw [consumeFields, consumeFields, htag]
            simp only []
            rw [hval]
            simp only [reduceIte]
            rw [hprobe]
            simp only []
            rw [hrec]
        · cases htn : Field.tryNew t v with
          | error e4 =>
            rw [consumeFields, consumeFields, htag]
            simp only []
            rw [hval]
            simp only [if_neg ht10]
            rw [htn]
          | ok fnew =>
            have hrec : consumeFields f l2 bodyStart N (acc ++ [fnew])
                = consumeFields (f + 1) l2 bodyStart N (acc ++ [fnew]) := by
              apply ih
              · rw [hvi]
                apply hvlen
                rw [hti]
                exact htlen hc
              · rw [hvi, hti]
                omega
            rw [consumeFields, consumeFields, htag]
            simp only []
            rw [hval]
            simp only [if_neg ht10]
            rw [htn]
            simp only []
            rw [hrec]

/-! Section: Decode always leaves the optional header fields empty -/

theorem decode_ok_header_fields (bytes : List Nat) (msg : Message)
    (h : decode bytes = .ok msg) : msg.header.fields = [] := by
  unfold decode at h
  simp only [] at h
  repeat' split at h
  all_goals first
    | (injection h; done)
    | (injection h with h2; first | rw [← h2] | rw [h2])

/-! Section: The claims -/

/-- Claim C1, counterexample.  The round-trip claim fails as stated: a
message built with an optional header field decodes with an empty header
and the header field moved into the body; a body field `Custom{tag 34}`
comes back as the typed `MsgSeqNum` variant; a body field with tag 10
followed by another field makes decoding fail outright. -/
theorem c1_counterexample :
    (decode (Message.encode (((Message.builder .fix44 .logon).withHeader
          (.custom 144 (s2b (r"value144")))).withField (.custom 58 (s2b (r"x")))))
        = .ok ⟨⟨.fix44, .logon, []⟩,
            ⟨[.custom 144 (s2b (r"value144")), .custom 58 (s2b (r"x"))]⟩⟩
      ∧ (((Message.builder .fix44 .logon).withHeader
          (.custom 144 (s2b (r"value144")))).withField
            (.custom 58 (s2b (r"x")))).header.fields ≠ [])
    ∧ decode (Message.encode ((Message.builder .fix44 .logon).withField
          (.custom 34 (s2b (r"7")))))
        = .ok ⟨⟨.fix44, .logon, []⟩, ⟨[.msgSeqNum 7]⟩⟩
    ∧ decode (Message.encode (((Message.builder .fix44 .logon).withField
          (.custom 58 (s2b (r"x")))).withField (.custom 10 (s2b (r"y")))))
        = .error .unexpectedChecksum := by
  decide

/-- Claim C1, amended.  Round-trip holds for a message with no optional
header fields whose body fields are all stable under the decoder's
`Field::try_new` dispatch, carry no tag 10 and no SOH byte in their
values (and whose regular section fits the `usize` body-length field):
decoding the encoding returns the message itself, field for field. -/
theorem c1_roundtrip_amended (m : Message)
    (hheader : m.header.fields = [])
    (hbody : m.body.fields ≠ [])
    (hgood : ∀ f ∈ m.body.fields, goodField f)
    (hlen : (encodeRegularFields m.header m.body).length ≤ 18446744073709551615) :
    decode (Message.encode m) = .ok m := by
  obtain ⟨⟨bs, mt, hf⟩, ⟨bf⟩⟩ := m
  simp only [] at hheader hbody hgood hlen
  subst hheader
  cases bf with
  | nil => exact absurd rfl hbody
  | cons f0 rest => exact decode_encode bs mt f0 rest hgood hlen

/-- Witness for the amended C1 round-trip at a concrete message. -/
theorem c1_roundtrip_amended_witness :
    (⟨⟨.fix44, .logon, []⟩, ⟨[Field.custom 58 [120]]⟩⟩ : Message).header.fields = []
    ∧ (⟨⟨.fix44, .logon, []⟩, ⟨[Field.custom 58 [120]]⟩⟩ : Message).body.fields ≠ []
    ∧ (∀ f ∈ (⟨⟨.fix44, .logon, []⟩, ⟨[Field.custom 58 [120]]⟩⟩ : Message).body.fields,
        goodField f)
    ∧ (encodeRegularFields (⟨⟨.fix44, .logon, []⟩, ⟨[Field.custom 58 [120]]⟩⟩ : Message).header
        (⟨⟨.fix44, .logon, []⟩, ⟨[Field.custom 58 [120]]⟩⟩ : Message).body).length
        ≤ 18446744073709551615
    ∧ decode (Message.encode ⟨⟨.fix44, .logon, []⟩, ⟨[Field.custom 58 [120]]⟩⟩)
        = .ok ⟨⟨.fix44, .logon, []⟩, ⟨[Field.custom 58 [120]]⟩⟩ :=
  ⟨by decide, by decide, by decide, by decide,
    c1_roundtrip_amended ⟨⟨.fix44, .logon, []⟩, ⟨[Field.custom 58 [120]]⟩⟩
      (by decide) (by decide) (by decide) (by decide)⟩

/-- Claim C2, counterexample.  A buffer with no `10=` anywhere (the three
bytes `1`, `0`, `=` never occur consecutively) is accepted by `decode`:
the checksum state is skipped at end of input, so the claim that such a
buffer is rejected is false. -/
theorem c2_counterexample :
    decode noChecksumInput = .ok ⟨⟨.fix44, .logon, []⟩, ⟨[.custom 58 [65]]⟩⟩
    ∧ ((List.range noChecksumInput.length).all
        (fun i => !(noChecksumInput[i]? == some 49 && noChecksumInput[i + 1]? == some 48
          && noChecksumInput[i + 2]? == some 61))) = true := by
  decide

/-- Claim C2, amended.  When the field loop does reach a tag-10 field
(value `v`, probe for a further tag failing and leaving lexer `l3`) and
the whole decode loop succeeds, the checksum value parsed as `u8` equals
the modulo-256 sum of the input bytes before the checksum field as
located by the decoder's cursor arithmetic.  But the `ExpectChecksum`
state CAN be skipped: an otherwise well-formed buffer that simply ends
without a tag-10 field is accepted, not rejected. -/
theorem c2_checksum_amended :
    (∀ (fuel : Nat) (l l1 l2 l3 : Lexer) (v : List Nat) (e : LexError)
        (bodyStart N : Nat) (acc out : List Field),
      l.tag = (.ok 10, l1) → l1.value = (.ok v, l2) → l2.tag = (.error e, l3) →
      consumeFields (fuel + 1) l bodyStart N acc = .ok out →
      parseU8 v = .ok ((l3.input.take (l3.cursor - 1 - v.length - 1 - 2)).sum % 256))
    ∧ decode skipChecksumInput
        = .ok ⟨⟨.fix44, .heartbeat, []⟩, ⟨[.targetCompID (s2b (r"ab"))]⟩⟩ := by
  refine ⟨?_, by decide⟩
  intro fuel l l1 l2 l3 v e bodyStart N acc out htag hval hprobe hok
  exact (consumeFields_checksum_ok fuel l l1 l2 l3 v e bodyStart N acc out
    htag hval hprobe hok).2

/-- Witness for the amended C2 at a concrete loop state: the checksum
field of `oneFieldEncoded` starts at cursor 25, its value is `"3"`, and
the modulo-256 sum of the first 25 bytes is 3. -/
theorem c2_checksum_amended_witness :
    Lexer.tag ⟨oneFieldEncoded, 25⟩ = (.ok 10, ⟨oneFieldEncoded, 28⟩)
    ∧ Lexer.value ⟨oneFieldEncoded, 28⟩ = (.ok [51], ⟨oneFieldEncoded, 30⟩)
    ∧ Lexer.tag ⟨oneFieldEncoded, 30⟩ = (.error .eoi, ⟨oneFieldEncoded, 30⟩)
    ∧ consumeFields 1 ⟨oneFieldEncoded, 25⟩ 15 10 [] = .ok []
    ∧ parseU8 [51]
        = .ok (((⟨oneFieldEncoded, 30⟩ : Lexer).input.take (30 - 1 - [51].length - 1 - 2)).sum
          % 256) :=
  ⟨by decide, by decide, by decide, by decide,
    c2_checksum_amended.1 0 ⟨oneFieldEncoded, 25⟩ ⟨oneFieldEncoded, 28⟩
      ⟨oneFieldEncoded, 30⟩ ⟨oneFieldEncoded, 30⟩ [51] .eoi 15 10 [] []
      (by decide) (by decide) (by decide) (by decide)⟩

/-- Claim C3.  The integer parser does NOT reject empty input: the empty
slice parses as `Ok(0)` for every instantiation, and `"-"` parses as
`Ok(0)` for signed targets — the `Empty` error variant of the source is
unreachable (`bytes.get(1..)` on a slice starting with `-` is always
`Some`), contradicting both the claim and the variant's own
documentation. -/
theorem c3_empty_parses_as_zero :
    (∀ (signed : Bool) (lo hi : Int), parseFixInt signed lo hi [] = .ok 0)
    ∧ parseI8 [45] = .ok 0
    ∧ parseU8 [] = .ok 0 := by
  refine ⟨?_, by decide, by decide⟩
  intro signed lo hi
  rfl

/-- Claim C4.  With zero ASCII digits before the `=` byte, `Lexer::tag`
does NOT return a malformed-tag error: the empty digit span parses as 0
(the empty-input slip of `parse_fix_int`), so the lexer returns tag 0 and
consumes the `=`. -/
theorem c4_empty_tag_is_zero (I : List Nat) (c : Nat) (h : I[c]? = some EQUALS) :
    Lexer.tag ⟨I, c⟩ = (.ok 0, ⟨I, c + 1⟩) := by
  have hlt : c < I.length := by
    by_contra hge
    rw [List.getElem?_eq_none (by omega)] at h
    exact absurd h (by simp)
  have hIc : I[c] = EQUALS := by
    rw [List.getElem?_eq_getElem hlt] at h
    injection h
  have hdrop : I.drop c = EQUALS :: I.drop (c + 1) := by
    rw [List.drop_eq_getElem_cons hlt, hIc]
  have hdig : isAsciiDigit EQUALS = false := by decide
  have htake : (I.drop c).takeWhile isAsciiDigit = [] := by
    rw [hdrop, List.takeWhile_cons, hdig]
    simp
  unfold Lexer.tag
  simp only [htake, List.length_nil, Nat.add_zero]
  unfold Lexer.skip
  simp only [h, ne_eq, not_true_eq_false, if_neg, reduceIte]
  rfl

/-- Witness for C4 on the concrete input `"=A"` at cursor 0. -/
theorem c4_empty_tag_is_zero_witness :
    ([61, 65] : List Nat)[0]? = some EQUALS
    ∧ Lexer.tag ⟨[61, 65], 0⟩ = (.ok 0, ⟨[61, 65], 0 + 1⟩) :=
  ⟨by decide, c4_empty_tag_is_zero [61, 65] 0 (by decide)⟩

/-- Claim C5, counterexample.  `"99x"` as `u8` contains the non-digit
`x`, yet the parser fails with Overflow, not InvalidDigit: the checked
multiply by 10 is performed before the digit test. -/
theorem c5_counterexample :
    parseU8 (s2b (r"99x")) = .error .overflow
    ∧ isAsciiDigit 120 = false := by
  decide

/-- Claim C5, amended.  With a non-digit byte after the optional sign the
parser never succeeds: it fails with the invalid-digit error, or with
overflow when a checked multiply/add overflows before the first invalid
byte is examined (the multiply check precedes the digit check);
`"abc"` as `u8` gives invalid-digit, `"99x"` as `u8` gives overflow. -/
theorem c5_invalid_digit_amended :
    (∀ (signed : Bool) (lo hi : Int) (bytes : List Nat),
      (∃ b ∈ signStripped signed bytes, isAsciiDigit b = false) →
      parseFixInt signed lo hi bytes = .error .invalidDigit
      ∨ parseFixInt signed lo hi bytes = .error .overflow)
    ∧ parseU8 (s2b (r"abc")) = .error .invalidDigit
    ∧ parseU8 (s2b (r"99x")) = .error .overflow :=
  ⟨fun signed lo hi bytes h => parseFixInt_nondigit signed lo hi bytes h,
    by decide, by decide⟩

/-- Witness for the amended C5 at `"abc"` as `u8`. -/
theorem c5_invalid_digit_amended_witness :
    (∃ b ∈ signStripped false (s2b (r"abc")), isAsciiDigit b = false)
    ∧ (parseFixInt false 0 255 (s2b (r"abc")) = .error .invalidDigit
      ∨ parseFixInt false 0 255 (s2b (r"abc")) = .error .overflow) :=
  ⟨by decide, c5_invalid_digit_amended.1 false 0 255 (s2b (r"abc")) (by decide)⟩

/-- Claim C6, counterexample.  On `oneFieldEncoded ++ [0x35]` the
declared body length is 10 and the byte distance from the position after
the body-length field's SOH (position 15) to the position immediately
before the checksum tag bytes (position 25) is exactly 10 — yet decode
fails with a body-length error carrying received = 11, because the failed
probe for a tag after the checksum consumed the stray digit and shifted
the cursor arithmetic. -/
theorem c6_counterexample :
    decode trailingDigitInput = .error (.bodyLength 11 10)
    ∧ trailingDigitInput.take 15 = s2b (r"8=FIX.4.4") ++ [SOH] ++ s2b (r"9=10") ++ [SOH]
    ∧ trailingDigitInput.drop 25 = s2b (r"10=3") ++ [SOH] ++ [53] := by
  decide

/-- Claim C6, amended.  The measured body length is computed from the
post-probe cursor as `cursor − 1 − |value| − 1 − 2 − bodyStart`, and the
decoder fails with a body-length error carrying declared and measured
values whenever they differ; this equals the claimed byte distance
exactly when the checksum tag is written as the two bytes `10`, the value
ends with a consumed SOH, and the probe consumed nothing.  On the
section-8 sample with `9=042` the error carries expected = 42 and
received = 148. -/
theorem c6_body_length_amended :
    (∀ (fuel : Nat) (l l1 l2 l3 : Lexer) (v : List Nat) (e : LexError)
        (bodyStart N : Nat) (acc : List Field),
      l.tag = (.ok 10, l1) → l1.value = (.ok v, l2) → l2.tag = (.error e, l3) →
      (l3.cursor - 1 - v.length - 1 - 2) - bodyStart ≠ N →
      consumeFields (fuel + 1) l bodyStart N acc
        = .error (.bodyLength ((l3.cursor - 1 - v.length - 1 - 2) - bodyStart) N))
    ∧ (∀ (l l1 l2 l3 : Lexer) (v : List Nat),
      l1.cursor = l.cursor + 3 → l2.cursor = l1.cursor + v.length + 1 →
      l3.cursor = l2.cursor →
      l3.cursor - 1 - v.length - 1 - 2 = l.cursor)
    ∧ decode sample042 = .error (.bodyLength 148 42) := by
  refine ⟨?_, ?_, by decide⟩
  · intro fuel l l1 l2 l3 v e bodyStart N acc htag hval hprobe hne
    exact consumeFields_bodyLength_step fuel l l1 l2 l3 v e bodyStart N acc
      htag hval hprobe hne
  · intro l l1 l2 l3 v h1 h2 h3
    omega

/-- Witness for the amended C6 at the concrete trailing-digit input. -/
theorem c6_body_length_amended_witness :
    Lexer.tag ⟨trailingDigitInput, 25⟩ = (.ok 10, ⟨trailingDigitInput, 28⟩)
    ∧ Lexer.value ⟨trailingDigitInput, 28⟩ = (.ok [51], ⟨trailingDigitInput, 30⟩)
    ∧ Lexer.tag ⟨trailingDigitInput, 30⟩ = (.error .eoi, ⟨trailingDigitInput, 31⟩)
    ∧ (31 - 1 - [51].length - 1 - 2) - 15 ≠ 10
    ∧ consumeFields 1 ⟨trailingDigitInput, 25⟩ 15 10 []
        = .error (.bodyLength ((31 - 1 - [51].length - 1 - 2) - 15) 10) :=
  ⟨by decide, by decide, by decide, by decide,
    c6_body_length_amended.1 0 ⟨trailingDigitInput, 25⟩ ⟨trailingDigitInput, 28⟩
      ⟨trailingDigitInput, 30⟩ ⟨trailingDigitInput, 31⟩ [51] .eoi 15 10 []
      (by decide) (by decide) (by decide) (by decide)⟩

/-- Claim C7.  `parse_fix_int` uses checked arithmetic throughout: a
leading minus on an unsigned target is an overflow-class error for every
unsigned instantiation; every successful parse lies within the target's
bounds (no wraparound or truncation); and the concrete cases of the spec
hold: `"256"` as u8 overflows, `"-100"` as u8 overflows, `"-128"` as i8
gives -128, `"-129"` as i8 overflows. -/
theorem c7_checked_arithmetic :
    (∀ (lo hi : Int) (rest : List Nat), parseFixInt false lo hi (45 :: rest) = .error .overflow)
    ∧ (∀ (signed : Bool) (lo hi : Int) (bytes : List Nat) (w : Int),
        lo ≤ 0 → 0 ≤ hi → parseFixInt signed lo hi bytes = .ok w → lo ≤ w ∧ w ≤ hi)
    ∧ parseU8 (s2b (r"256")) = .error .overflow
    ∧ parseU8 (s2b (r"-100")) = .error .overflow
    ∧ parseI8 (s2b (r"-128")) = .ok (-128)
    ∧ parseI8 (s2b (r"-129")) = .error .overflow :=
  ⟨fun lo hi rest => parseFixInt_minus_unsigned lo hi rest,
    fun signed lo hi bytes w hlo hhi h => parseFixInt_range signed lo hi bytes w hlo hhi h,
    by decide, by decide, by decide, by decide⟩

/-- Witness for C7's range part at `"1"` parsed with u8 bounds. -/
theorem c7_checked_arithmetic_witness :
    (0 : Int) ≤ 0 ∧ (0 : Int) ≤ 255
    ∧ parseFixInt false 0 255 [49] = .ok 1
    ∧ ((0 : Int) ≤ 1 ∧ (1 : Int) ≤ 255) :=
  ⟨by decide, by decide, by decide,
    c7_checked_arithmetic.2.1 false 0 255 [49] 1 (by decide) (by decide) (by decide)⟩

/-- Claim C8.  Encoding the empty-header, empty-body Logon message yields
exactly `8=FIX.4.4␁9=5␁35=A␁10=180␁`: the body length 5 counts exactly
`35=A␁`, and 180 is the modulo-256 sum of all preceding bytes. -/
theorem c8_encoder_framing :
    encode ⟨.fix44, .logon, []⟩ ⟨[]⟩
      = s2b (r"8=FIX.4.4") ++ [SOH] ++ s2b (r"9=5") ++ [SOH] ++ s2b (r"35=A") ++ [SOH]
        ++ s2b (r"10=180") ++ [SOH]
    ∧ (s2b (r"35=A") ++ [SOH]).length = 5
    ∧ (s2b (r"8=FIX.4.4") ++ [SOH] ++ s2b (r"9=5") ++ [SOH] ++ s2b (r"35=A") ++ [SOH]).sum % 256
        = 180 := by
  decide

/-- Claim C9.  Whenever a further tag lexes successfully right after the
checksum field's value, the loop — and hence decode — fails with the
unexpected-checksum error, and no decoded message exists. -/
theorem c9_unexpected_checksum :
    (∀ (fuel : Nat) (l l1 l2 l3 : Lexer) (v : List Nat) (t : Nat)
        (bodyStart N : Nat) (acc : List Field),
      l.tag = (.ok 10, l1) → l1.value = (.ok v, l2) → l2.tag = (.ok t, l3) →
      consumeFields (fuel + 1) l bodyStart N acc = .error .unexpectedChecksum)
    ∧ decode afterChecksumInput = .error .unexpectedChecksum := by
  refine ⟨?_, by decide⟩
  intro fuel l l1 l2 l3 v t bodyStart N acc htag hval hprobe
  exact consumeFields_unexpected_step fuel l l1 l2 l3 v t bodyStart N acc htag hval hprobe

/-- Witness for C9 at a concrete loop state (`"10=␁58=x"`). -/
theorem c9_unexpected_checksum_witness :
    Lexer.tag ⟨[49, 48, 61, 1, 53, 56, 61, 120], 0⟩
      = (.ok 10, ⟨[49, 48, 61, 1, 53, 56, 61, 120], 3⟩)
    ∧ Lexer.value ⟨[49, 48, 61, 1, 53, 56, 61, 120], 3⟩
      = (.ok [], ⟨[49, 48, 61, 1, 53, 56, 61, 120], 4⟩)
    ∧ Lexer.tag ⟨[49, 48, 61, 1, 53, 56, 61, 120], 4⟩
      = (.ok 58, ⟨[49, 48, 61, 1, 53, 56, 61, 120], 7⟩)
    ∧ consumeFields 1 ⟨[49, 48, 61, 1, 53, 56, 61, 120], 0⟩ 0 0 []
      = .error .unexpectedChecksum :=
  ⟨by decide, by decide, by decide,
    c9_unexpected_checksum.1 0 ⟨[49, 48, 61, 1, 53, 56, 61, 120], 0⟩
      ⟨[49, 48, 61, 1, 53, 56, 61, 120], 3⟩ ⟨[49, 48, 61, 1, 53, 56, 61, 120], 4⟩
      ⟨[49, 48, 61, 1, 53, 56, 61, 120], 7⟩ [] 58 0 0 []
      (by decide) (by decide) (by decide)⟩

/-- Claim C10.  Every successful decode returns a message whose optional
header field list is empty — decode only ever adds fields through the
body path — and on the section-8 sample every pair between the
message-type field and the checksum (tags 34, 49, 52, 56, 11, 15, 21,
38, 40, 54, 55, 60) lands in the body in wire order. -/
theorem c10_decode_body_only :
    (∀ (bytes : List Nat) (msg : Message), decode bytes = .ok msg → msg.header.fields = [])
    ∧ decode sampleMessage
      = .ok ⟨⟨.fix44, .logon, []⟩, ⟨[.msgSeqNum 1080, .senderCompID (s2b (r"TESTBUY1")),
          .sendingTime (s2b (r"20180920-18:14:19.508")),
          .targetCompID (s2b (r"TESTSELL1")),
          .custom 11 (s2b (r"636730640278898634")), .custom 15 (s2b (r"USD")),
          .custom 21 (s2b (r"2")), .custom 38 (s2b (r"7000")), .custom 40 (s2b (r"1")),
          .custom 54 (s2b (r"1")), .custom 55 (s2b (r"MSFT")),
          .custom 60 (s2b (r"20180920-18:14:19.492"))]⟩⟩ :=
  ⟨fun bytes msg h => decode_ok_header_fields bytes msg h, by decide⟩

/-- Witness for C10's universal part at the sample message. -/
theorem c10_decode_body_only_witness :
    decode sampleMessage
      = .ok ⟨⟨.fix44, .logon, []⟩, ⟨[.msgSeqNum 1080, .senderCompID (s2b (r"TESTBUY1")),
          .sendingTime (s2b (r"20180920-18:14:19.508")),
          .targetCompID (s2b (r"TESTSELL1")),
          .custom 11 (s2b (r"636730640278898634")), .custom 15 (s2b (r"USD")),
          .custom 21 (s2b (r"2")), .custom 38 (s2b (r"7000")), .custom 40 (s2b (r"1")),
          .custom 54 (s2b (r"1")), .custom 55 (s2b (r"MSFT")),
          .custom 60 (s2b (r"20180920-18:14:19.492"))]⟩⟩
    ∧ (⟨⟨.fix44, .logon, []⟩, ⟨[.msgSeqNum 1080, .senderCompID (s2b (r"TESTBUY1")),
          .sendingTime (s2b (r"20180920-18:14:19.508")),
          .targetCompID (s2b (r"TESTSELL1")),
          .custom 11 (s2b (r"636730640278898634")), .custom 15 (s2b (r"USD")),
          .custom 21 (s2b (r"2")), .custom 38 (s2b (r"7000")), .custom 40 (s2b (r"1")),
          .custom 54 (s2b (r"1")), .custom 55 (s2b (r"MSFT")),
          .custom 60 (s2b (r"20180920-18:14:19.492"))]⟩⟩ : Message).header.fields = [] :=
  ⟨by decide, c10_decode_body_only.1 sampleMessage _ (by decide)⟩

end Trafix
